import Mathlib

/-!
Verification development for the audio utility library (`src/index.ts`).

The library orchestrates external processes (ffmpeg, sox, play) around a
small amount of arithmetic.  We embed the observable behaviour of each
function shallowly:

* Numbers (seconds, speeds, bitrates) are modelled as rationals `ℚ`,
  standing for the exact real arithmetic performed by the source on its
  numeric values (the inputs used in every concrete theorem below are
  small integers, which double-precision floats represent exactly).
* The ffmpeg command built by `getAudioFileSegment` is modelled as the
  list of builder operations applied to the command object.
* `processAudioFileInChunks` is modelled as the trace of its external
  calls (segment extractions and handler invocations), with the `while`
  loop rendered as a fuel-indexed structural recursion: `none` means the
  fuel was exhausted, and a sufficiency lemma shows that for
  `overlapSecs < chunkSecs` the canonical fuel always suffices, so the
  model is fuel-independent exactly where the source loop terminates.
* Extraction and handler failures are supplied by Boolean oracles, so the
  error-propagation behaviour of the `await` chain can be stated.
-/

attribute [local semireducible] Rat.add Rat.sub Rat.mul Rat.inv

/-- Bitrate used when converting audio for voice-to-text
(`TARGET_VOICE_TO_TEXT_BITRATE` in the source). -/
def TARGET_VOICE_TO_TEXT_BITRATE : ℚ := 22050

/-- Settings record accepted by `getAudioFileSegment`.  Optional fields of
the TypeScript type become `Option`/defaultable values; `toMono` is a
`Bool` because the source only ever tests its truthiness. -/
structure AudioSegmentSettings where
  startSecs : ℚ
  endSecs : ℚ
  toMono : Bool
  bitrateConversion : Option ℚ
  playbackSpeed : Option ℚ
  deriving DecidableEq, Repr

/-- The output path computed by `getAudioFileSegment`:
the template literal `\x7b path \x7d.segment-\x7b startSecs \x7d-\x7b endSecs \x7d.mp3`. -/
def segmentPath (path : String) (startSecs endSecs : ℚ) : String :=
  path ++ ".segment-" ++ toString startSecs ++ "-" ++ toString endSecs ++ ".mp3"

/-- The effective playback speed computed by `getAudioFileSegment`:
`!settings.playbackSpeed ? 1 : s < 0.5 ? 0.5 : s > 2 ? 2 : s`.
An absent value is `none`; the JavaScript falsiness test on a present
number is the test against `0`. -/
def effectivePlaybackSpeed (playbackSpeed : Option ℚ) : ℚ :=
  match playbackSpeed with
  | none => 1
  | some s => if s = 0 then 1 else if s < 1/2 then 1/2 else if s > 2 then 2 else s

/-- One builder operation applied to the fluent-ffmpeg command object. -/
inductive FfmpegOp where
  | setStartTime (t : ℚ)
  | setDuration (d : ℚ)
  | noVideo
  | audioChannels (n : ℕ)
  | audioBitrate (b : ℚ)
  | audioFilters (f : String)
  | output (p : String)
  deriving DecidableEq, Repr

/-- The sequence of builder operations `getAudioFileSegment` applies, in
source order: start/duration/noVideo, then the conditional mono,
bitrate (a falsy `bitrateConversion`, i.e. absent or `0`, is skipped),
tempo-filter (skipped exactly when the effective speed is `1`), and
finally the output path. -/
def getAudioFileSegmentCmd (path : String) (settings : AudioSegmentSettings) : List FfmpegOp :=
  [FfmpegOp.setStartTime settings.startSecs,
   FfmpegOp.setDuration (settings.endSecs - settings.startSecs),
   FfmpegOp.noVideo]
  ++ (if settings.toMono then [FfmpegOp.audioChannels 1] else [])
  ++ (match settings.bitrateConversion with
      | none => []
      | some b => if b = 0 then [] else [FfmpegOp.audioBitrate b])
  ++ (if effectivePlaybackSpeed settings.playbackSpeed = 1 then []
      else [FfmpegOp.audioFilters ("atempo=" ++ toString (effectivePlaybackSpeed settings.playbackSpeed))])
  ++ [FfmpegOp.output (segmentPath path settings.startSecs settings.endSecs)]

/-- `getAudioFileSegment`, as the pair of the ffmpeg command it runs and
the path its promise resolves with on success. -/
def getAudioFileSegment (path : String) (settings : AudioSegmentSettings) :
    List FfmpegOp × String :=
  (getAudioFileSegmentCmd path settings, segmentPath path settings.startSecs settings.endSecs)

/-- Does the command contain any `audioFilters` step (the only filter the
source ever adds is the `atempo` one)? -/
def hasAtempoFilter (cmd : List FfmpegOp) : Bool :=
  cmd.any fun op => match op with
    | FfmpegOp.audioFilters _ => true
    | _ => false

/-- Does the command contain any `audioBitrate` step? -/
def hasBitrateStep (cmd : List FfmpegOp) : Bool :=
  cmd.any fun op => match op with
    | FfmpegOp.audioBitrate _ => true
    | _ => false

/-- One observable external call made by `processAudioFileInChunks`:
a segment extraction (`getAudioFileSegment`) or a handler invocation
(`fProcess`), together with whether that call succeeded. -/
inductive Event where
  | extract (startSecs endSecs : ℚ) (ok : Bool)
  | handle (path : String) (isTemporary : Bool) (ok : Bool)
  deriving DecidableEq, Repr

/-- Whether the call recorded by an event succeeded. -/
def Event.isOk : Event → Bool
  | Event.extract _ _ ok => ok
  | Event.handle _ _ ok => ok

/-- The settings `processAudioFileInChunks` passes to
`getAudioFileSegment` for each chunk. -/
def chunkSettings (startSecs endSecs playbackSpeed : ℚ) : AudioSegmentSettings :=
  ⟨startSecs, endSecs, true, some TARGET_VOICE_TO_TEXT_BITRATE, some playbackSpeed⟩

/-- The `while (startSecs < info.duration)` loop of
`processAudioFileInChunks`, as a fuel-indexed recursion over the loop
variable `startSecs`.  `extractOk`/`handleOk` are oracles giving the
outcome of each awaited external call; a failed `await` rejects the
surrounding promise, so the run returns the events so far with `false`.
`none` means the fuel ran out before the loop exited. -/
def chunkLoopRun (path : String) (D C O playbackSpeed : ℚ)
    (extractOk : ℚ → ℚ → Bool) (handleOk : String → Bool) :
    ℕ → ℚ → Option (List Event × Bool)
  | 0, _ => none
  | fuel+1, startSecs =>
    if startSecs < D then
      let endSecs := min (startSecs + C) D
      if extractOk startSecs endSecs then
        let chunkPath := (getAudioFileSegment path (chunkSettings startSecs endSecs playbackSpeed)).2
        if handleOk chunkPath then
          (chunkLoopRun path D C O playbackSpeed extractOk handleOk fuel (startSecs + (C - O))).map
            (fun r => (Event.extract startSecs endSecs true :: Event.handle chunkPath true true :: r.1, r.2))
        else some ([Event.extract startSecs endSecs true, Event.handle chunkPath true false], false)
      else some ([Event.extract startSecs endSecs false], false)
    else some ([], true)

/-- Fuel that (as proved below) always suffices for the loop when
`O < C`: one more than the number of loop iterations from `startSecs = 0`. -/
def fuelFor (D C O : ℚ) : ℕ := (D / (C - O)).num.toNat + 1

/-- `processAudioFileInChunks`, as the trace of its external calls and
whether its promise resolved (`true`) or rejected (`false`).
`probeResult` is the outcome of `getAudioFileInfo`: `none` when probing
rejects (which rejects the whole operation before anything else runs),
`some D` when it resolves with duration `D`. -/
def processRun (path : String) (probeResult : Option ℚ) (C O playbackSpeed : ℚ)
    (extractOk : ℚ → ℚ → Bool) (handleOk : String → Bool) :
    Option (List Event × Bool) :=
  match probeResult with
  | none => some ([], false)
  | some D =>
    if D ≤ C + O * 2 then some ([Event.handle path false (handleOk path)], handleOk path)
    else chunkLoopRun path D C O playbackSpeed extractOk handleOk (fuelFor D C O) 0

/-- The handler invocations `(path, isTemporary)` recorded in a trace. -/
def invocations (events : List Event) : List (String × Bool) :=
  events.filterMap fun e => match e with
    | Event.handle p t _ => some (p, t)
    | _ => none

/-- The `(startSecs, endSecs)` intervals of the extraction calls in a trace. -/
def extractedIntervals (events : List Event) : List (ℚ × ℚ) :=
  events.filterMap fun e => match e with
    | Event.extract s e2 _ => some (s, e2)
    | _ => none

/-- The segment files successfully created during a run (the source never
deletes a file, so these all persist when the run ends). -/
def createdFiles (path : String) (events : List Event) : List String :=
  events.filterMap fun e => match e with
    | Event.extract s e2 true => some (segmentPath path s e2)
    | _ => none

/-- The handler invocations of a failure-free run of
`processAudioFileInChunks` with probed duration `D`. -/
def processAudioFileInChunks (path : String) (D C O playbackSpeed : ℚ) :
    Option (List (String × Bool)) :=
  (processRun path (some D) C O playbackSpeed (fun _ _ => true) (fun _ => true)).map
    fun r => invocations r.1

/-- The chunk intervals produced by a failure-free run of
`processAudioFileInChunks` with probed duration `D` (they do not depend
on the input path or the playback speed). -/
def chunkIntervals (D C O : ℚ) : Option (List (ℚ × ℚ)) :=
  (processRun "in" (some D) C O 1 (fun _ _ => true) (fun _ => true)).map
    fun r => extractedIntervals r.1

/-- Modelled from the spec (section 8): the chunk count the spec claims,
`ceil((D - O) / (C - O))`, to be compared with the count the code
produces. -/
def specChunkCount (D C O : ℚ) : ℤ := ⌈(D - O) / (C - O)⌉

/-- The closed form of the chunk intervals: `n` iterations starting at
`startSecs`, each covering `[startSecs, min (startSecs + C) D]` and
advancing by `step`. -/
def chunkSeq (D C step : ℚ) : ℕ → ℚ → List (ℚ × ℚ)
  | 0, _ => []
  | n+1, startSecs => (startSecs, min (startSecs + C) D) :: chunkSeq D C step n (startSecs + step)

/-- The closed form of a failure-free loop trace: `n` iterations, each an
extraction followed by a handler invocation on the extracted chunk. -/
def successTrace (path : String) (D C step : ℚ) : ℕ → ℚ → List Event
  | 0, _ => []
  | n+1, startSecs =>
    Event.extract startSecs (min (startSecs + C) D) true
      :: Event.handle (segmentPath path startSecs (min (startSecs + C) D)) true true
      :: successTrace path D C step n (startSecs + step)

/-- The number of loop iterations remaining when the loop variable is at
`startSecs`: `⌈(D - startSecs) / (C - O)⌉`, clamped to a natural. -/
def loopMeasure (D C O startSecs : ℚ) : ℕ := (⌈(D - startSecs) / (C - O)⌉).toNat

/-- The state of the completion promise of `recordMicrophone` after the
capture process's close event fires with the given exit code: the close
handler logs the code and calls the stored `resolve` with `outPath`; the
promise executor never calls `reject`. -/
structure MicClose where
  resolvedPaths : List String
  rejectionCount : ℕ
  logLines : List String
  deriving DecidableEq, Repr

/-- The close-event handler installed by `recordMicrophone`. -/
def recordMicrophoneOnClose (outPath : String) (exitCode : Int) : MicClose :=
  { resolvedPaths := [outPath]
    rejectionCount := 0
    logLines := ["mic exited with code " ++ toString exitCode] }

/-- The loop measure is zero once the loop condition fails. -/
theorem loopMeasure_of_le (D C O startSecs : ℚ) (hOC : O < C) (h : D ≤ startSecs) :
    loopMeasure D C O startSecs = 0 := by
  have hs : (0:ℚ) < C - O := sub_pos.mpr hOC
  have hq : (D - startSecs) / (C - O) ≤ 0 :=
    div_nonpos_of_nonpos_of_nonneg (sub_nonpos.mpr h) hs.le
  have hc : ⌈(D - startSecs) / (C - O)⌉ ≤ 0 := Int.ceil_le.mpr (by rw [Int.cast_zero]; exact hq)
  simp only [loopMeasure]
  omega

/-- Each loop iteration decreases the measure by exactly one. -/
theorem loopMeasure_succ (D C O startSecs : ℚ) (hOC : O < C) (h : startSecs < D) :
    loopMeasure D C O startSecs = loopMeasure D C O (startSecs + (C - O)) + 1 := by
  have hs : (0:ℚ) < C - O := sub_pos.mpr hOC
  have hkey : (D - (startSecs + (C - O))) / (C - O) = (D - startSecs) / (C - O) - 1 := by
    field_simp
    ring
  have hpos : (0:ℚ) < (D - startSecs) / (C - O) := div_pos (sub_pos.mpr h) hs
  have hone : 1 ≤ ⌈(D - startSecs) / (C - O)⌉ := Int.ceil_pos.mpr hpos
  simp only [loopMeasure, hkey, Int.ceil_sub_one]
  omega

/-- The ceiling of a rational, clamped to a natural, is at most its
(clamped) numerator. -/
theorem ceil_toNat_le_num_toNat (q : ℚ) : (⌈q⌉).toNat ≤ q.num.toNat := by
  rcases le_or_lt q.num 0 with hn | hn
  · have hq : q ≤ 0 := Rat.num_nonpos.mp hn
    have : ⌈q⌉ ≤ 0 := Int.ceil_le.mpr (by rw [Int.cast_zero]; exact hq)
    omega
  · have hq : q ≤ (q.num : ℚ) := by
      conv_lhs => rw [← Rat.num_div_den q]
      apply div_le_self
      · exact_mod_cast hn.le
      · exact_mod_cast q.pos
    have hc : ⌈q⌉ ≤ q.num := by
      calc ⌈q⌉ ≤ ⌈(q.num : ℚ)⌉ := Int.ceil_le_ceil hq
        _ = q.num := Int.ceil_intCast q.num
    omega

/-- The canonical fuel exceeds the number of loop iterations. -/
theorem loopMeasure_lt_fuelFor (D C O : ℚ) : loopMeasure D C O 0 < fuelFor D C O := by
  have h := ceil_toNat_le_num_toNat (D / (C - O))
  simp only [loopMeasure, fuelFor, sub_zero]
  omega

/-- A failure-free run of the chunk loop with enough fuel produces exactly
the closed-form trace, one extraction and one handler call per iteration,
and resolves. -/
theorem chunkLoopRun_allOk (path : String) (D C O ps : ℚ) (hOC : O < C) :
    ∀ fuel startSecs, loopMeasure D C O startSecs < fuel →
      chunkLoopRun path D C O ps (fun _ _ => true) (fun _ => true) fuel startSecs
        = some (successTrace path D C (C - O) (loopMeasure D C O startSecs) startSecs, true) := by
  intro fuel
  induction fuel with
  | zero => intro s h; exact absurd h (Nat.not_lt_zero _)
  | succ n ih =>
    intro s h
    by_cases hlt : s < D
    · have hm := loopMeasure_succ D C O s hOC hlt
      have hrec : loopMeasure D C O (s + (C - O)) < n := by omega
      simp only [chunkLoopRun, if_pos hlt, if_true, ih _ hrec, Option.map_some']
      rw [hm]
      simp [successTrace, getAudioFileSegment, chunkSettings]
    · rw [loopMeasure_of_le D C O s hOC (not_lt.mp hlt)]
      simp [chunkLoopRun, if_neg hlt, successTrace]

/-- The handler invocations of the closed-form trace are the chunk
paths, all flagged temporary. -/
theorem invocations_successTrace (path : String) (D C step : ℚ) :
    ∀ n startSecs, invocations (successTrace path D C step n startSecs)
      = (chunkSeq D C step n startSecs).map fun se => (segmentPath path se.1 se.2, true) := by
  intro n
  induction n with
  | zero => intro s; simp [successTrace, chunkSeq, invocations]
  | succ n ih => intro s; simp [successTrace, chunkSeq, invocations, List.filterMap_cons] at ih ⊢; exact ih _

/-- The extraction intervals of the closed-form trace are the chunks. -/
theorem extractedIntervals_successTrace (path : String) (D C step : ℚ) :
    ∀ n startSecs, extractedIntervals (successTrace path D C step n startSecs)
      = chunkSeq D C step n startSecs := by
  intro n
  induction n with
  | zero => intro s; simp [successTrace, chunkSeq, extractedIntervals]
  | succ n ih =>
    intro s
    simp [successTrace, chunkSeq, extractedIntervals, List.filterMap_cons] at ih ⊢
    exact ih _

/-- The chunk sequence has one entry per iteration. -/
theorem chunkSeq_length (D C step : ℚ) :
    ∀ n startSecs, (chunkSeq D C step n startSecs).length = n := by
  intro n
  induction n with
  | zero => intro s; simp [chunkSeq]
  | succ n ih => intro s; simp [chunkSeq, ih]

/-- Closed form of the `k`-th chunk: it starts at `startSecs + k * step`
and ends at `min` of the chunk end and the total duration. -/
theorem chunkSeq_getD (D C step : ℚ) :
    ∀ n k startSecs, k < n →
      (chunkSeq D C step n startSecs).getD k (0, 0)
        = (startSecs + k * step, min (startSecs + k * step + C) D) := by
  intro n
  induction n with
  | zero => intro k s hk; exact absurd hk (Nat.not_lt_zero _)
  | succ n ih =>
    intro k s hk
    cases k with
    | zero => simp [chunkSeq]
    | succ k =>
      have hk' : k < n := by omega
      simp only [chunkSeq, List.getD_cons_succ, ih k (s + step) hk']
      simp only [Prod.mk.injEq]
      constructor <;> · push_cast; ring_nf

/-- **C5 counterexample.**  A playback speed of `0` is below `0.5` but is
not clamped to `0.5`: the falsiness test treats it as unset, so the
effective speed is `1`. -/
theorem effectivePlaybackSpeed_zero_not_clamped :
    effectivePlaybackSpeed (some 0) = 1 ∧ (0 : ℚ) < 1/2 ∧ (1 : ℚ) ≠ 1/2 := by
  refine ⟨rfl, by norm_num, by norm_num⟩

/-- **C5 (amended).**  The effective playback speed always lies in
`[0.5, 2]`; `none` and `0` resolve to `1`; a nonzero value below `0.5`
is clamped to `0.5`; a value above `2` is clamped to `2`; a value already
in `[0.5, 2]` is used as given, never rejected. -/
theorem effectivePlaybackSpeed_spec (ps : Option ℚ) :
    (1/2 ≤ effectivePlaybackSpeed ps ∧ effectivePlaybackSpeed ps ≤ 2)
    ∧ effectivePlaybackSpeed none = 1
    ∧ effectivePlaybackSpeed (some 0) = 1
    ∧ (∀ x : ℚ, x ≠ 0 → x < 1/2 → effectivePlaybackSpeed (some x) = 1/2)
    ∧ (∀ x : ℚ, 2 < x → effectivePlaybackSpeed (some x) = 2)
    ∧ (∀ x : ℚ, 1/2 ≤ x → x ≤ 2 → effectivePlaybackSpeed (some x) = x) := by
  refine ⟨?_, rfl, rfl, ?_, ?_, ?_⟩
  · cases ps with
    | none => constructor <;> norm_num [effectivePlaybackSpeed]
    | some s =>
      simp only [effectivePlaybackSpeed]
      split_ifs <;> constructor <;> linarith
  · intro x hx hlt
    simp only [effectivePlaybackSpeed]
    rw [if_neg hx, if_pos hlt]
  · intro x hx
    have hx0 : x ≠ 0 := by linarith
    have hxh : ¬ x < 1/2 := by linarith
    simp only [effectivePlaybackSpeed]
    rw [if_neg hx0, if_neg hxh, if_pos hx]
  · intro x h1 h2
    have hx0 : x ≠ 0 := by intro h; rw [h] at h1; norm_num at h1
    have hxh : ¬ x < 1/2 := by linarith
    have hx2 : ¬ x > 2 := by linarith
    simp only [effectivePlaybackSpeed]
    rw [if_neg hx0, if_neg hxh, if_neg hx2]

/-- **C5 witness.**  Concrete clampings: `0.25` is clamped up to `0.5`
and `3` is clamped down to `2`. -/
theorem effectivePlaybackSpeed_spec_witness :
    effectivePlaybackSpeed (some (1/4)) = 1/2 ∧ effectivePlaybackSpeed (some 3) = 2 :=
  ⟨(effectivePlaybackSpeed_spec (some (1/4))).2.2.2.1 (1/4) (by norm_num) (by norm_num),
   (effectivePlaybackSpeed_spec (some 3)).2.2.2.2.1 3 (by norm_num)⟩

/-- If the effective playback speed is `1`, the built command contains no
`audioFilters` step at all. -/
theorem hasAtempoFilter_eq_false (path : String) (settings : AudioSegmentSettings)
    (h : effectivePlaybackSpeed settings.playbackSpeed = 1) :
    hasAtempoFilter (getAudioFileSegmentCmd path settings) = false := by
  rcases settings with ⟨st, en, mono, br, psp⟩
  simp only [getAudioFileSegmentCmd] at *
  rw [if_pos h]
  cases mono <;> rcases br with _ | b <;>
    simp [hasAtempoFilter, List.any_append]

/-- If the effective playback speed is not `1`, the built command contains
the `atempo` filter with that factor. -/
theorem atempo_mem_cmd (path : String) (settings : AudioSegmentSettings)
    (h : effectivePlaybackSpeed settings.playbackSpeed ≠ 1) :
    FfmpegOp.audioFilters ("atempo=" ++ toString (effectivePlaybackSpeed settings.playbackSpeed))
      ∈ getAudioFileSegmentCmd path settings := by
  simp only [getAudioFileSegmentCmd]
  rw [if_neg h]
  simp

/-- A `bitrateConversion` of `0` is falsy, so no `audioBitrate` step is
added. -/
theorem hasBitrateStep_eq_false (path : String) (settings : AudioSegmentSettings)
    (h : settings.bitrateConversion = some 0) :
    hasBitrateStep (getAudioFileSegmentCmd path settings) = false := by
  rcases settings with ⟨st, en, mono, br, psp⟩
  simp only at h
  subst h
  simp only [getAudioFileSegmentCmd]
  cases mono <;> simp [hasBitrateStep, List.any_append]

/-- The short-file branch of `processAudioFileInChunks`: one handler
invocation on the original path, flagged non-temporary, no extraction. -/
theorem processRun_short (path : String) (D C O ps : ℚ)
    (eOk : ℚ → ℚ → Bool) (hOk : String → Bool) (hD : D ≤ C + O * 2) :
    processRun path (some D) C O ps eOk hOk
      = some ([Event.handle path false (hOk path)], hOk path) := by
  simp only [processRun]
  rw [if_pos hD]

/-- The chunking branch of a failure-free run equals the closed-form
trace. -/
theorem processRun_chunks (path : String) (D C O ps : ℚ) (hOC : O < C)
    (hD : ¬ D ≤ C + O * 2) :
    processRun path (some D) C O ps (fun _ _ => true) (fun _ => true)
      = some (successTrace path D C (C - O) (loopMeasure D C O 0) 0, true) := by
  simp only [processRun]
  rw [if_neg hD]
  exact chunkLoopRun_allOk path D C O ps hOC (fuelFor D C O) 0 (loopMeasure_lt_fuelFor D C O)

/-- Closed form for the chunk intervals in the chunking branch. -/
theorem chunkIntervals_eq (D C O : ℚ) (hOC : O < C) (hD : ¬ D ≤ C + O * 2) :
    chunkIntervals D C O = some (chunkSeq D C (C - O) (loopMeasure D C O 0) 0) := by
  simp only [chunkIntervals, processRun_chunks "in" D C O 1 hOC hD, Option.map_some']
  rw [extractedIntervals_successTrace]

/-- With `O ≥ C` the loop variable never increases, so with failure-free
oracles the loop never terminates: it returns `none` for every fuel. -/
theorem chunkLoopRun_diverges (path : String) (D C O ps : ℚ) (hCO : C ≤ O) :
    ∀ fuel startSecs, startSecs < D →
      chunkLoopRun path D C O ps (fun _ _ => true) (fun _ => true) fuel startSecs = none := by
  intro fuel
  induction fuel with
  | zero => intro s h; rfl
  | succ n ih =>
    intro s h
    have hstep : s + (C - O) < D := by
      have : C - O ≤ 0 := sub_nonpos.mpr hCO
      linarith
    simp only [chunkLoopRun, if_pos h, if_true, ih _ hstep, Option.map_none']

/-- A run of the chunk loop that rejects consists of a block of
successful calls followed by exactly one failed call, with nothing after
it. -/
theorem chunkLoopRun_failed (path : String) (D C O ps : ℚ)
    (eOk : ℚ → ℚ → Bool) (hOk : String → Bool) :
    ∀ fuel startSecs evs,
      chunkLoopRun path D C O ps eOk hOk fuel startSecs = some (evs, false) →
        ∃ front lastE, evs = front ++ [lastE]
          ∧ (∀ e ∈ front, e.isOk = true)
          ∧ lastE.isOk = false := by
  intro fuel
  induction fuel with
  | zero => intro s evs h; simp [chunkLoopRun] at h
  | succ n ih =>
    intro s evs h
    simp only [chunkLoopRun] at h
    by_cases hlt : s < D
    · rw [if_pos hlt] at h
      by_cases he : eOk s (min (s + C) D)
      · rw [if_pos he] at h
        by_cases hh : hOk ((getAudioFileSegment path (chunkSettings s (min (s + C) D) ps)).2)
        · rw [if_pos hh] at h
          rcases Option.map_eq_some'.mp h with ⟨⟨evs', b⟩, hrec, hmk⟩
          rw [Prod.mk.injEq] at hmk
          obtain ⟨rfl, rfl⟩ := hmk
          obtain ⟨front, lastE, rfl, hfront, hlast⟩ := ih _ _ hrec
          refine ⟨Event.extract s (min (s + C) D) true
              :: Event.handle ((getAudioFileSegment path (chunkSettings s (min (s + C) D) ps)).2) true true
              :: front, lastE, by simp, ?_, hlast⟩
          intro e hme
          rcases hme with _ | ⟨_, hme⟩
          · rfl
          · rcases hme with _ | ⟨_, hme⟩
            · rfl
            · exact hfront e hme
        · rw [if_neg hh] at h
          rw [Option.some.injEq, Prod.mk.injEq] at h
          obtain ⟨rfl, -⟩ := h
          refine ⟨[Event.extract s (min (s + C) D) true],
            Event.handle ((getAudioFileSegment path (chunkSettings s (min (s + C) D) ps)).2) true false,
            by simp, ?_, rfl⟩
          intro e hme
          simp at hme
          subst hme
          rfl
      · rw [if_neg he] at h
        rw [Option.some.injEq, Prod.mk.injEq] at h
        obtain ⟨rfl, -⟩ := h
        exact ⟨[], Event.extract s (min (s + C) D) false, by simp, by simp, rfl⟩
    · rw [if_neg hlt] at h
      simp at h

/-- Every successfully extracted segment file is among the files created
by the run; the model (like the source) has no deletion operation, so
these persist when the run ends. -/
theorem mem_createdFiles (path : String) (evs : List Event) (a b : ℚ)
    (h : Event.extract a b true ∈ evs) :
    segmentPath path a b ∈ createdFiles path evs := by
  simp only [createdFiles]
  exact List.mem_filterMap.mpr ⟨Event.extract a b true, h, rfl⟩

/-- **C1 counterexample.**  With D = 541, C = 300, O = 30 (a valid
configuration for the chunking branch), the code invokes the handler 3
times, but the claimed formula `ceil((D - O) / (C - O))` gives 2. -/
theorem chunk_count_formula_cex :
    (processAudioFileInChunks "audio.mp3" 541 300 30 1).map List.length = some 3
    ∧ specChunkCount 541 300 30 = 2
    ∧ ((0:ℚ) < 30 ∧ (30:ℚ) < 300 ∧ (300:ℚ) + 30 * 2 < 541) := by
  refine ⟨by decide, ?_, by norm_num⟩
  norm_num [specChunkCount, Int.ceil_eq_iff]

/-- **C1 (amended).**  For `0 < O < C`, the handler is invoked exactly
`⌈D / (C - O)⌉` times when `D > C + 2·O`, and exactly once — on the
original path, flagged non-temporary — when `D ≤ C + 2·O`. -/
theorem processAudioFileInChunks_count (path : String) (D C O ps : ℚ)
    (hO : 0 < O) (hOC : O < C) :
    (C + O * 2 < D →
      (processAudioFileInChunks path D C O ps).map List.length = some ((⌈D / (C - O)⌉).toNat))
    ∧ (D ≤ C + O * 2 → processAudioFileInChunks path D C O ps = some [(path, false)]) := by
  constructor
  · intro hD
    have hD' : ¬ D ≤ C + O * 2 := not_le.mpr hD
    simp only [processAudioFileInChunks, processRun_chunks path D C O ps hOC hD',
      Option.map_some']
    rw [invocations_successTrace]
    simp [chunkSeq_length, loopMeasure]
  · intro hD
    simp only [processAudioFileInChunks, processRun_short path D C O ps _ _ hD,
      Option.map_some']
    simp [invocations]

/-- **C1 witness.**  D = 600, C = 300, O = 30 exercises both conjuncts'
hypotheses: 3 chunks in the chunking branch. -/
theorem processAudioFileInChunks_count_witness :
    (processAudioFileInChunks "in.mp3" 600 300 30 1).map List.length
      = some ((⌈(600:ℚ) / (300 - 30)⌉).toNat) :=
  (processAudioFileInChunks_count "in.mp3" 600 300 30 1 (by norm_num) (by norm_num)).1
    (by norm_num)

/-- **C2 counterexample.**  With D = 541, C = 300, O = 30 the second of
three chunks is `[270, 541]`: it is not the final chunk, yet its length
`541 - 270 = 271` is not `chunkSecs = 300`, and `541 - 30 = 511` is not
the next chunk's start `540`. -/
theorem chunk_invariant_cex :
    chunkIntervals 541 300 30 = some [(0, 300), (270, 541), (540, 541)]
    ∧ ((541:ℚ) - 270 ≠ 300)
    ∧ ((541:ℚ) - 30 ≠ 540)
    ∧ ((0:ℚ) < 30 ∧ (30:ℚ) < 300 ∧ (300:ℚ) + 30 * 2 < 541) := by
  exact ⟨by decide, by norm_num, by norm_num, by norm_num⟩

/-- **C2 (amended).**  In the chunking branch, every chunk — the final
one included — ends at `min (start + C) D` (hence never past `D`);
whenever a chunk is not truncated at `D` (i.e. `start + C ≤ D`) it has
length exactly `C`; and whenever a chunk has a successor, the starts
differ by exactly `C - O` and, if the chunk is untruncated, its end
minus the overlap is the successor's start.  (Chunks other than the
final one may be truncated at `D`, as the counterexample shows.) -/
theorem chunkIntervals_structure (D C O : ℚ) (hO : 0 < O) (hOC : O < C)
    (hD : C + O * 2 < D) (L : List (ℚ × ℚ)) (hL : chunkIntervals D C O = some L)
    (i : ℕ) (hi : i < L.length) :
    (L.getD i (0, 0)).2 = min ((L.getD i (0, 0)).1 + C) D
    ∧ (L.getD i (0, 0)).2 ≤ D
    ∧ ((L.getD i (0, 0)).1 + C ≤ D →
        (L.getD i (0, 0)).2 - (L.getD i (0, 0)).1 = C)
    ∧ (i + 1 < L.length →
        (L.getD (i+1) (0, 0)).1 = (L.getD i (0, 0)).1 + (C - O)
        ∧ ((L.getD i (0, 0)).1 + C ≤ D →
            (L.getD i (0, 0)).2 - O = (L.getD (i+1) (0, 0)).1)) := by
  have hD' : ¬ D ≤ C + O * 2 := not_le.mpr hD
  have hEq := chunkIntervals_eq D C O hOC hD'
  rw [hL, Option.some.injEq] at hEq
  subst hEq
  rw [chunkSeq_length] at hi
  have h1 := chunkSeq_getD D C (C - O) (loopMeasure D C O 0) i 0 hi
  refine ⟨by rw [h1], ?_, ?_, ?_⟩
  · rw [h1]
    exact min_le_right _ _
  · intro htr
    rw [h1] at htr ⊢
    rw [min_eq_left htr]
    ring
  · intro hi1
    rw [chunkSeq_length] at hi1
    have h2 := chunkSeq_getD D C (C - O) (loopMeasure D C O 0) (i+1) 0 hi1
    rw [h1, h2]
    refine ⟨by push_cast; ring, ?_⟩
    intro htr
    rw [min_eq_left htr]
    push_cast
    ring

/-- **C2 witness.**  The spec's own scenario D = 600, C = 300, O = 30,
checked at the final chunk `[540, 600]`, which is truncated at D. -/
theorem chunkIntervals_structure_witness :
    (([(0, 300), (270, 570), (540, 600)] : List (ℚ × ℚ)).getD 2 (0, 0)).2
      = min ((([(0, 300), (270, 570), (540, 600)] : List (ℚ × ℚ)).getD 2 (0, 0)).1 + 300) 600
    ∧ (([(0, 300), (270, 570), (540, 600)] : List (ℚ × ℚ)).getD 2 (0, 0)).2 ≤ 600
    ∧ ((([(0, 300), (270, 570), (540, 600)] : List (ℚ × ℚ)).getD 2 (0, 0)).1 + 300 ≤ 600 →
        (([(0, 300), (270, 570), (540, 600)] : List (ℚ × ℚ)).getD 2 (0, 0)).2
          - (([(0, 300), (270, 570), (540, 600)] : List (ℚ × ℚ)).getD 2 (0, 0)).1 = 300)
    ∧ (2 + 1 < ([(0, 300), (270, 570), (540, 600)] : List (ℚ × ℚ)).length →
        (([(0, 300), (270, 570), (540, 600)] : List (ℚ × ℚ)).getD 3 (0, 0)).1
          = (([(0, 300), (270, 570), (540, 600)] : List (ℚ × ℚ)).getD 2 (0, 0)).1 + (300 - 30)
        ∧ ((([(0, 300), (270, 570), (540, 600)] : List (ℚ × ℚ)).getD 2 (0, 0)).1 + 300 ≤ 600 →
            (([(0, 300), (270, 570), (540, 600)] : List (ℚ × ℚ)).getD 2 (0, 0)).2 - 30
              = (([(0, 300), (270, 570), (540, 600)] : List (ℚ × ℚ)).getD 3 (0, 0)).1)) :=
  chunkIntervals_structure 600 300 30 (by norm_num) (by norm_num) (by norm_num)
    [(0, 300), (270, 570), (540, 600)] (by decide) 2 (by decide)

/-- **C3.**  The code has no guard for `overlapSecs ≥ chunkSecs`: with
D = 6, C = 1, O = 2 (which takes the chunking branch since 6 > 1 + 2·2)
the loop advances `startSecs` by the negative amount `C - O = -1`, so it
never terminates — the fuel-indexed model returns `none` for every fuel
instead of rejecting with a configuration error. -/
theorem no_overlap_guard :
    (∀ fuel, chunkLoopRun "audio.mp3" 6 1 2 1 (fun _ _ => true) (fun _ => true) fuel 0 = none)
    ∧ processAudioFileInChunks "audio.mp3" 6 1 2 1 = none
    ∧ ((1:ℚ) + 2 * 2 < 6) := by
  refine ⟨fun fuel => chunkLoopRun_diverges "audio.mp3" 6 1 2 1 (by norm_num) fuel 0 (by norm_num),
    ?_, by norm_num⟩
  simp only [processAudioFileInChunks, processRun]
  rw [if_neg (by norm_num)]
  rw [chunkLoopRun_diverges "audio.mp3" 6 1 2 1 (by norm_num) _ 0 (by norm_num)]
  rfl

/-- **C4.**  When `D ≤ C + 2·O`, the run consists of exactly one handler
invocation, on the original input path with `isTemporary = false`; no
extraction call is made (so no temporary file is created), whatever the
extraction/handler oracles are. -/
theorem short_file_single_invocation (path : String) (D C O ps : ℚ)
    (eOk : ℚ → ℚ → Bool) (hOk : String → Bool) (hD : D ≤ C + O * 2) :
    processRun path (some D) C O ps eOk hOk
      = some ([Event.handle path false (hOk path)], hOk path)
    ∧ processAudioFileInChunks path D C O ps = some [(path, false)] := by
  refine ⟨processRun_short path D C O ps eOk hOk hD, ?_⟩
  simp only [processAudioFileInChunks, processRun_short path D C O ps _ _ hD,
    Option.map_some']
  simp [invocations]

/-- **C4 witness.**  The spec's scenario D = 100, C = 300, O = 30. -/
theorem short_file_single_invocation_witness :
    processRun "orig.mp3" (some 100) 300 30 1 (fun _ _ => true) (fun _ => true)
      = some ([Event.handle "orig.mp3" false true], true)
    ∧ processAudioFileInChunks "orig.mp3" 100 300 30 1 = some [("orig.mp3", false)] :=
  short_file_single_invocation "orig.mp3" 100 300 30 1 (fun _ _ => true) (fun _ => true)
    (by norm_num)

/-- **C6.**  When the effective playback speed is exactly `1`, the
transcode command contains no tempo-filter step at all; when it differs
from `1`, the `atempo` filter with that factor is present. -/
theorem atempo_filter_iff (path : String) (settings : AudioSegmentSettings) :
    (effectivePlaybackSpeed settings.playbackSpeed = 1 →
      hasAtempoFilter (getAudioFileSegmentCmd path settings) = false)
    ∧ (effectivePlaybackSpeed settings.playbackSpeed ≠ 1 →
      FfmpegOp.audioFilters ("atempo=" ++ toString (effectivePlaybackSpeed settings.playbackSpeed))
        ∈ getAudioFileSegmentCmd path settings) :=
  ⟨hasAtempoFilter_eq_false path settings, atempo_mem_cmd path settings⟩

/-- **C6 witness.**  Unset speed adds no filter; speed 2 adds the
`atempo` filter. -/
theorem atempo_filter_iff_witness :
    hasAtempoFilter (getAudioFileSegmentCmd "p.mp3" ⟨0, 10, false, none, none⟩) = false
    ∧ FfmpegOp.audioFilters
        ("atempo=" ++ toString (effectivePlaybackSpeed (some 2)))
        ∈ getAudioFileSegmentCmd "p.mp3" ⟨0, 10, false, none, some 2⟩ :=
  ⟨(atempo_filter_iff "p.mp3" ⟨0, 10, false, none, none⟩).1 (by norm_num [effectivePlaybackSpeed]),
   (atempo_filter_iff "p.mp3" ⟨0, 10, false, none, some 2⟩).2 (by norm_num [effectivePlaybackSpeed])⟩

/-- **C7.**  The output path of `getAudioFileSegment` is the template
`<path>.segment-<startSecs>-<endSecs>.mp3` and depends only on
`(path, startSecs, endSecs)`: two settings agreeing on those bounds give
the identical path string. -/
theorem segment_path_pure (path : String) (s1 s2 : AudioSegmentSettings)
    (h1 : s1.startSecs = s2.startSecs) (h2 : s1.endSecs = s2.endSecs) :
    (getAudioFileSegment path s1).2
      = path ++ ".segment-" ++ toString s1.startSecs ++ "-" ++ toString s1.endSecs ++ ".mp3"
    ∧ (getAudioFileSegment path s1).2 = (getAudioFileSegment path s2).2 := by
  refine ⟨rfl, ?_⟩
  simp only [getAudioFileSegment, segmentPath, h1, h2]

/-- **C7 witness.**  Identical bounds with different conversion options
give the identical path. -/
theorem segment_path_pure_witness :
    (getAudioFileSegment "a.mp3" ⟨5, 10, true, some 22050, some 2⟩).2
      = "a.mp3" ++ ".segment-" ++ toString ((5:ℚ)) ++ "-" ++ toString ((10:ℚ)) ++ ".mp3"
    ∧ (getAudioFileSegment "a.mp3" ⟨5, 10, true, some 22050, some 2⟩).2
      = (getAudioFileSegment "a.mp3" ⟨5, 10, false, none, none⟩).2 :=
  segment_path_pure "a.mp3" ⟨5, 10, true, some 22050, some 2⟩ ⟨5, 10, false, none, none⟩
    rfl rfl

/-- **C8.**  If probing rejects, the whole operation rejects with no
extraction and no handler invocation.  If an extraction or handler call
in the chunk loop fails, the trace is a block of successful calls
followed by exactly the one failed call — nothing runs after it — the
rejection propagates (the run's flag is `false`), and every segment file
successfully created before the failure is still among the run's created
files (no rollback). -/
theorem failure_semantics (path : String) (D C O ps : ℚ)
    (eOk : ℚ → ℚ → Bool) (hOk : String → Bool) :
    processRun path none C O ps eOk hOk = some ([], false)
    ∧ (∀ fuel startSecs evs,
        chunkLoopRun path D C O ps eOk hOk fuel startSecs = some (evs, false) →
          (∃ front lastE, evs = front ++ [lastE]
            ∧ (∀ e ∈ front, e.isOk = true)
            ∧ lastE.isOk = false)
          ∧ (∀ a b, Event.extract a b true ∈ evs →
              segmentPath path a b ∈ createdFiles path evs)) :=
  ⟨rfl, fun fuel s evs h =>
    ⟨chunkLoopRun_failed path D C O ps eOk hOk fuel s evs h,
     fun a b hm => mem_createdFiles path evs a b hm⟩⟩

/-- **C8 witness.**  A run whose second extraction fails: the trace is
the successful first chunk followed by the failed extraction, and the
first chunk's file is among the created files. -/
theorem failure_semantics_witness :
    (∃ front lastE,
        [Event.extract 0 300 true,
         Event.handle (segmentPath "a" 0 300) true true,
         Event.extract 270 570 false] = front ++ [lastE]
        ∧ (∀ e ∈ front, e.isOk = true)
        ∧ lastE.isOk = false)
    ∧ (∀ a b, Event.extract a b true ∈
          [Event.extract 0 300 true,
           Event.handle (segmentPath "a" 0 300) true true,
           Event.extract 270 570 false] →
        segmentPath "a" a b ∈ createdFiles "a"
          [Event.extract 0 300 true,
           Event.handle (segmentPath "a" 0 300) true true,
           Event.extract 270 570 false]) :=
  (failure_semantics "a" 600 300 30 1 (fun s _ => decide (s < 100)) (fun _ => true)).2
    4 0 _ (by decide)

/-- **C9.**  The close-event handler of `recordMicrophone` resolves the
completion promise with the given `outPath` — exactly one resolution,
never a rejection, whatever the exit code — and the exit code appears
only in the log. -/
theorem recordMicrophone_close_resolves (outPath : String) (exitCode : Int) :
    (recordMicrophoneOnClose outPath exitCode).resolvedPaths = [outPath]
    ∧ (recordMicrophoneOnClose outPath exitCode).rejectionCount = 0
    ∧ (recordMicrophoneOnClose outPath exitCode).logLines
        = ["mic exited with code " ++ toString exitCode] :=
  ⟨rfl, rfl, rfl⟩

/-- **C10.**  A `playbackSpeed` of `0` is falsy, hence treated as unset:
the effective speed is `1` and no tempo filter is added; likewise a
`bitrateConversion` of `0` is falsy and no bitrate step is added. -/
theorem falsy_zero_settings (path : String) (settings : AudioSegmentSettings) :
    (settings.playbackSpeed = some 0 →
      effectivePlaybackSpeed settings.playbackSpeed = 1
      ∧ hasAtempoFilter (getAudioFileSegmentCmd path settings) = false)
    ∧ (settings.bitrateConversion = some 0 →
      hasBitrateStep (getAudioFileSegmentCmd path settings) = false) := by
  constructor
  · intro h
    have hs : effectivePlaybackSpeed settings.playbackSpeed = 1 := by
      rw [h]; rfl
    exact ⟨hs, hasAtempoFilter_eq_false path settings hs⟩
  · exact hasBitrateStep_eq_false path settings

/-- **C10 witness.**  Settings with both fields zero. -/
theorem falsy_zero_settings_witness :
    (effectivePlaybackSpeed (AudioSegmentSettings.playbackSpeed ⟨0, 10, false, some 0, some 0⟩) = 1
      ∧ hasAtempoFilter (getAudioFileSegmentCmd "p.mp3" ⟨0, 10, false, some 0, some 0⟩) = false)
    ∧ hasBitrateStep (getAudioFileSegmentCmd "p.mp3" ⟨0, 10, false, some 0, some 0⟩) = false :=
  ⟨(falsy_zero_settings "p.mp3" ⟨0, 10, false, some 0, some 0⟩).1 rfl,
   (falsy_zero_settings "p.mp3" ⟨0, 10, false, some 0, some 0⟩).2 rfl⟩
